import Mathlib

/-!
Verification development for the Ebbinghaus spaced-repetition vocabulary
trainer (`app.py`).  The file shallowly embeds the scheduling core
(`generate_schedule`, the due check of `api_reviews`/`api_data`, the
answer-recording logic of `api_answer`, item creation in `api_add`) and
the browser-side session engine (`startTest`/`submitAnswer`/`nextQuestion`
and the practice-mode functions), and proves the behavioural properties
stated in the specification.

Modelling conventions:
* Python `datetime.date` values are modelled by the `DateV` structure
  (year/month/day) with Gregorian successor arithmetic; `timedelta(days=n)`
  addition is `addDays` (n-fold calendar successor), and `date.isoformat()`
  is `iso` (zero-padded `YYYY-MM-DD`).
* Python strings are Lean `String`s; `str.strip` is `pyStrip`,
  `str.lower` is `pyLower` (ASCII case folding, which covers the data the
  application compares), and Python's lexicographic `<=` on strings is
  `pyStrLe` (code-point order).
* The SQLAlchemy `Entry` row is the `Entry` structure; the JSON-encoded
  `schedule`/`history` columns are carried decoded, as the handlers always
  decode them before use.
-/

set_option maxRecDepth 4000

/-- Calendar date, mirroring Python `datetime.date`. -/
structure DateV where
  year : Nat
  month : Nat
  day : Nat
deriving DecidableEq, Repr, Inhabited

/-- Gregorian leap-year test. -/
def isLeap (y : Nat) : Bool :=
  (y % 4 == 0 && y % 100 != 0) || (y % 400 == 0)

/-- Number of days in a month of the Gregorian calendar. -/
def daysInMonth (y m : Nat) : Nat :=
  if m == 2 then (if isLeap y then 29 else 28)
  else if m == 4 || m == 6 || m == 9 || m == 11 then 30
  else 31

/-- Calendar successor: the next day of a Gregorian date. -/
def nextDay (d : DateV) : DateV :=
  if d.day < daysInMonth d.year d.month then ⟨d.year, d.month, d.day + 1⟩
  else if d.month < 12 then ⟨d.year, d.month + 1, 1⟩
  else ⟨d.year + 1, 1, 1⟩

/-- `d + timedelta(days := n)`: n-fold calendar successor. -/
def addDays (d : DateV) : Nat → DateV
  | 0 => d
  | n + 1 => nextDay (addDays d n)

/-- Decimal digit character (`'0'`..`'9'`). -/
def dChar (n : Nat) : Char := Char.ofNat (48 + n % 10)

/-- Four-digit zero-padded decimal rendering (`%04d`, for `n ≤ 9999`). -/
def pad4 (n : Nat) : List Char :=
  [dChar (n / 1000), dChar (n / 100), dChar (n / 10), dChar n]

/-- Two-digit zero-padded decimal rendering (`%02d`, for `n ≤ 99`). -/
def pad2 (n : Nat) : List Char := [dChar (n / 10), dChar n]

/-- Character list of the ISO `YYYY-MM-DD` rendering of a date. -/
def isoChars (d : DateV) : List Char :=
  pad4 d.year ++ '-' :: (pad2 d.month ++ '-' :: pad2 d.day)

/-- `date.isoformat()`: the ISO `YYYY-MM-DD` string of a date. -/
def iso (d : DateV) : String := String.mk (isoChars d)

/-- Dates representable by Python `datetime.date` (so the ISO rendering is
exactly ten characters). -/
def ValidDate (d : DateV) : Prop :=
  1 ≤ d.year ∧ d.year ≤ 9999 ∧ 1 ≤ d.month ∧ d.month ≤ 12 ∧
    1 ≤ d.day ∧ d.day ≤ daysInMonth d.year d.month

/-- Python's lexicographic string order (`s <= t`), on code points. -/
def pyLe : List Char → List Char → Bool
  | [], _ => true
  | _ :: _, [] => false
  | a :: as, b :: bs =>
    if a.toNat < b.toNat then true
    else if b.toNat < a.toNat then false
    else pyLe as bs

/-- Python `s <= t` on strings. -/
def pyStrLe (s t : String) : Bool := pyLe s.data t.data

/-- Characters removed by Python `str.strip()` (ASCII whitespace). -/
def isPySpace (c : Char) : Bool :=
  c.toNat == 32 || (9 ≤ c.toNat && c.toNat ≤ 13)

/-- Python `s.strip()`: remove surrounding whitespace. -/
def pyStrip (s : String) : String :=
  String.mk (((s.data.dropWhile isPySpace).reverse.dropWhile isPySpace).reverse)

/-- Python `s.lower()` (ASCII case folding). -/
def pyLower (s : String) : String := String.mk (s.data.map Char.toLower)

/-- `REVIEW_INTERVALS = [1, 3, 7, 14, 30]` (app.py line 29). -/
def REVIEW_INTERVALS : List Nat := [1, 3, 7, 14, 30]

/-- `generate_schedule` (app.py lines 79–81): the five review dates, as ISO
strings, at the fixed offsets from the registration date.  The Python
function receives the registration date as an ISO string and re-parses it
with `strptime`; the round-trip is modelled by taking the date value
directly. -/
def generate_schedule (registered : DateV) : List String :=
  REVIEW_INTERVALS.map (fun d => iso (addDays registered d))

/-- Outcome stored in a history record (`"correct"` / `"incorrect"`). -/
inductive AnswerResult
  | correct
  | incorrect
deriving DecidableEq, Repr, Inhabited

/-- One element of the `history` JSON array: `{date, result}`. -/
structure HistoryRecord where
  date : String
  result : AnswerResult
deriving DecidableEq, Repr, Inhabited

/-- The `Entry` row (app.py lines 43–53), with `schedule`/`history`
decoded from JSON. -/
structure Entry where
  id : Nat
  japanese : String
  english : String
  registered_at : String
  schedule : List String
  next_review_index : Nat
  history : List HistoryRecord
  completed : Bool
deriving DecidableEq, Repr, Inhabited

/-- The correctness test of `api_answer` (app.py lines 266 and 271):
the submitted text stripped of surrounding whitespace, lowered, compared
for equality with the lowered target text. -/
def answer_correct (submitted target : String) : Bool :=
  pyLower (pyStrip submitted) == pyLower target

/-- The state mutation of `api_answer` (app.py lines 270–285) on the
looked-up entry.  Returns `some (correct, updated entry)` on a committed
request; `none` models the uncaught `IndexError` (no commit) raised by
`sched[entry.next_review_index] = tomorrow` when the index is out of
range. -/
def record_answer (e : Entry) (rawAnswer : String) (today : DateV) :
    Option (Bool × Entry) :=
  if answer_correct rawAnswer e.english then
    some (true, { e with
      history := e.history ++ [⟨iso today, AnswerResult.correct⟩],
      next_review_index := e.next_review_index + 1,
      completed :=
        if e.schedule.length ≤ e.next_review_index + 1 then true
        else e.completed })
  else
    if e.next_review_index < e.schedule.length then
      some (false, { e with
        history := e.history ++ [⟨iso today, AnswerResult.incorrect⟩],
        schedule := e.schedule.set e.next_review_index (iso (addDays today 1)) })
    else none

/-- Item creation, `api_add` (app.py lines 205–223): both texts stripped,
rejected when either is empty, otherwise a fresh entry with the generated
schedule, index 0, empty history, not completed. -/
def api_add (newId : Nat) (japanese english : String) (today : DateV) :
    Option Entry :=
  let jp := pyStrip japanese
  let en := pyStrip english
  if jp == "" || en == "" then none
  else some ⟨newId, jp, en, iso today, generate_schedule today, 0, [], false⟩

/-- The due test of `api_reviews` (app.py lines 181–187) and `api_data`
(lines 156–162): not completed, index within the schedule, and the
scheduled date at the index at most today (string comparison). -/
def is_due (e : Entry) (today : String) : Bool :=
  if e.completed then false
  else
    match e.schedule[e.next_review_index]? with
    | some s => pyStrLe s today
    | none => false

/-- The due list served by `api_reviews` for a stored entry list. -/
def due_entries (db : List Entry) (today : String) : List Entry :=
  db.filter (fun e => is_due e today)

/-- `api_today_practiced` (app.py lines 191–202): entries with at least one
history record dated today. -/
def today_practiced (db : List Entry) (today : String) : List Entry :=
  db.filter (fun e => e.history.any (fun h => h.date == today))

/-- Response of the `/api/answer` endpoint as seen by the browser:
`ok` carries the JSON `correct`/`completed` fields; `notFound` is the 404
JSON (whose missing `correct` field reads as falsy); `crash` is the
unhandled-exception 500 page, on which `r.json()` throws. -/
inductive ServerResp
  | ok (correct : Bool) (completed : Bool)
  | notFound
  | crash
deriving DecidableEq, Repr

/-- The `/api/answer` endpoint (app.py lines 260–290): look the entry up by
id, run the answer-recording logic, commit the updated row.  The id is the
primary key, so the row update is modelled as a map over the list. -/
def api_answer_server (db : List Entry) (eid : Nat) (raw : String)
    (today : DateV) : ServerResp × List Entry :=
  match db.find? (fun x => x.id == eid) with
  | none => (ServerResp.notFound, db)
  | some x =>
    match record_answer x raw today with
    | none => (ServerResp.crash, db)
    | some (c, x') =>
      (ServerResp.ok c x'.completed, db.map (fun y => if y.id == eid then x' else y))

/-- The Review Test session state (`testState`, app.py lines 828–831). -/
structure TestState where
  reviews : List Entry
  idx : Nat
  correct : Nat
  tested : Nat
  waiting : Bool
  incorrect : List Entry
  round : Nat
  totalOriginal : Nat
deriving DecidableEq, Repr

/-- `startTest` (app.py lines 828–831), on a non-empty due list. -/
def startTest (due : List Entry) : TestState :=
  { reviews := due, idx := 0, correct := 0, tested := 0, waiting := false,
    incorrect := [], round := 1, totalOriginal := due.length }

/-- The state change of `nextQuestion` (app.py lines 889–900); the
end-of-queue branch only selects which result screen to render, captured
by `sessionPhase`. -/
def nextQuestion (s : TestState) : TestState :=
  { s with idx := s.idx + 1, waiting := false }

/-- Screen selected once the queue is exhausted (app.py lines 894–897):
a further question, the final result, or the round result. -/
inductive Phase
  | question
  | finalResult
  | roundResult
deriving DecidableEq, Repr

/-- Which screen the session shows for a given state. -/
def sessionPhase (s : TestState) : Phase :=
  if s.idx < s.reviews.length then Phase.question
  else if s.incorrect.isEmpty then Phase.finalResult
  else Phase.roundResult

/-- `startRetry` (app.py lines 915–922): requeue the incorrect items for
the next round. -/
def startRetry (s : TestState) : TestState :=
  { s with reviews := s.incorrect, incorrect := [], idx := 0, round := s.round + 1 }

/-- `submitAnswer` (app.py lines 864–887) together with the server call it
makes.  When `waiting`, the click advances via `nextQuestion`; an answer
that trims to empty is dropped before anything is sent; otherwise the
trimmed answer is posted to `/api/answer` and the outcome recorded.  The
out-of-range `reviews[idx]` case (unreachable from the rendered flow) and
the `crash` response leave the session unadvanced. -/
def submitAnswer (s : TestState) (db : List Entry) (raw : String)
    (today : DateV) : TestState × List Entry :=
  if s.waiting then (nextQuestion s, db)
  else if pyStrip raw == "" then (s, db)
  else
    match s.reviews[s.idx]? with
    | none => (s, db)
    | some entry =>
      match api_answer_server db entry.id (pyStrip raw) today with
      | (ServerResp.ok c _, db') =>
        if c then
          ({ s with tested := s.tested + 1, correct := s.correct + 1, waiting := true }, db')
        else
          ({ s with tested := s.tested + 1, incorrect := s.incorrect ++ [entry], waiting := true }, db')
      | (ServerResp.notFound, db') =>
        ({ s with tested := s.tested + 1, incorrect := s.incorrect ++ [entry], waiting := true }, db')
      | (ServerResp.crash, db') => ({ s with tested := s.tested + 1 }, db')

/-- One full question interaction: submit an answer, then acknowledge the
feedback (the second click reaches the `waiting` branch and advances). -/
def stepAnswer (today : DateV) (c : TestState × List Entry) (raw : String) :
    TestState × List Entry :=
  let c1 := submitAnswer c.1 c.2 raw today
  submitAnswer c1.1 c1.2 "" today

/-- Run a sequence of question interactions. -/
def runAnswers (today : DateV) (c : TestState × List Entry) :
    List String → TestState × List Entry
  | [] => c
  | a :: rest => runAnswers today (stepAnswer today c a) rest

/-- The practice-mode session state (`practiceState`, app.py line 961). -/
structure PracticeState where
  reviews : List Entry
  idx : Nat
  correct : Nat
  total : Nat
  waiting : Bool
  incorrect : List Entry
deriving DecidableEq, Repr

/-- `startPractice` (app.py lines 952–965) on the (shuffled) practice set. -/
def startPractice (shuffled : List Entry) : PracticeState :=
  { reviews := shuffled, idx := 0, correct := 0, total := shuffled.length,
    waiting := false, incorrect := [] }

/-- The local correctness test of practice mode (app.py line 1000):
case-insensitive comparison of the already-trimmed answer with the target. -/
def practice_correct (answer target : String) : Bool :=
  pyLower answer == pyLower target

/-- `nextPracticeQuestion` (app.py lines 1016–1023), state change only. -/
def nextPracticeQuestion (s : PracticeState) : PracticeState :=
  { s with idx := s.idx + 1, waiting := false }

/-- `submitPracticeAnswer` (app.py lines 993–1014): purely local — the
trimmed answer is graded with `practice_correct` and only the session
counters change; no server call is made. -/
def submitPracticeAnswer (s : PracticeState) (raw : String) : PracticeState :=
  if s.waiting then nextPracticeQuestion s
  else if pyStrip raw == "" then s
  else
    match s.reviews[s.idx]? with
    | none => s
    | some entry =>
      if practice_correct (pyStrip raw) entry.english then
        { s with correct := s.correct + 1, waiting := true }
      else
        { s with incorrect := s.incorrect ++ [entry], waiting := true }

/-- Run a sequence of practice interactions (submit, then acknowledge). -/
def runPractice (s : PracticeState) : List String → PracticeState
  | [] => s
  | a :: rest => runPractice (submitPracticeAnswer (submitPracticeAnswer s a) "") rest

/-- The data-model invariant of the specification: the tier cursor lies in
`[0,5]` and `completed` holds exactly at 5. -/
def entryInv (e : Entry) : Prop :=
  e.next_review_index ≤ 5 ∧ (e.completed = true ↔ e.next_review_index = 5)

/-- Modelled from the spec: date-level comparison of two calendar dates
(year, then month, then day), the comparison the string-level `pyStrLe`
on ISO renderings is claimed to implement. -/
def calendarLe (a b : DateV) : Bool :=
  if a.year < b.year then true
  else if b.year < a.year then false
  else if a.month < b.month then true
  else if b.month < a.month then false
  else decide (a.day ≤ b.day)
/-- Helper: reading the written position of `List.set`. -/
theorem getD_set_self {α : Type} (l : List α) (i : Nat) (v d : α) (h : i < l.length) :
    (l.set i v).getD i d = v := by
  rw [List.getD_eq_getElem?_getD, List.getElem?_set_self h]
  rfl

/-- Helper: `List.set` leaves every other position unchanged. -/
theorem getD_set_other {α : Type} (l : List α) (i j : Nat) (v d : α) (h : j ≠ i) :
    (l.set i v).getD j d = l.getD j d := by
  rw [List.getD_eq_getElem?_getD, List.getElem?_set_ne (Ne.symm h),
    ← List.getD_eq_getElem?_getD]

/-- A concrete stored item (registered 2024-01-01, the specification's
worked example), with tier cursor `i` and completion flag `c`; used to
instantiate the claim theorems. -/
def entryAt (i : Nat) (c : Bool) : Entry :=
  ⟨1, "inu", "dog", "2024-01-01",
    ["2024-01-02", "2024-01-04", "2024-01-08", "2024-01-15", "2024-01-31"],
    i, [], c⟩

/-- C1: after an incorrect answer at tier `i < 5` the tier cursor stays at
`i`, `schedule[i]` is overwritten with tomorrow's date, an `incorrect`
record dated today is appended to the history, `completed` stays false,
and every other schedule entry is left unchanged. -/
theorem claim1_incorrect_postpone (e : Entry) (raw : String) (today : DateV)
    (i : Nat) (hidx : e.next_review_index = i) (hi : i < 5)
    (hlen : e.schedule.length = 5) (hcomp : e.completed = false)
    (hwrong : answer_correct raw e.english = false) :
    ∃ e', record_answer e raw today = some (false, e') ∧
      e'.next_review_index = i ∧
      e'.schedule.getD i "" = iso (addDays today 1) ∧
      e'.history = e.history ++ [⟨iso today, AnswerResult.incorrect⟩] ∧
      e'.completed = false ∧
      ∀ j, j ≠ i → e'.schedule.getD j "" = e.schedule.getD j "" := by
  have hg : e.next_review_index < e.schedule.length := by omega
  refine ⟨{ e with
      history := e.history ++ [⟨iso today, AnswerResult.incorrect⟩],
      schedule := e.schedule.set e.next_review_index (iso (addDays today 1)) },
    ?_, hidx, ?_, rfl, hcomp, ?_⟩
  · unfold record_answer
    rw [hwrong, if_neg (by simp), if_pos hg]
  · show (e.schedule.set e.next_review_index (iso (addDays today 1))).getD i "" = _
    rw [hidx] at hg ⊢
    exact getD_set_self _ _ _ _ hg
  · intro j hj
    show (e.schedule.set e.next_review_index (iso (addDays today 1))).getD j "" = _
    rw [hidx]
    exact getD_set_other _ _ _ _ _ hj

/-- C1 witness at a concrete due item and a concrete wrong answer. -/
theorem claim1_witness :
    ∃ e', record_answer (entryAt 1 false) "cat" ⟨2024, 1, 4⟩ = some (false, e') ∧
      e'.next_review_index = 1 ∧
      e'.schedule.getD 1 "" = iso (addDays ⟨2024, 1, 4⟩ 1) ∧
      e'.history = (entryAt 1 false).history ++ [⟨iso ⟨2024, 1, 4⟩, AnswerResult.incorrect⟩] ∧
      e'.completed = false ∧
      ∀ j, j ≠ 1 → e'.schedule.getD j "" = (entryAt 1 false).schedule.getD j "" :=
  claim1_incorrect_postpone (entryAt 1 false) "cat" ⟨2024, 1, 4⟩ 1 rfl (by decide)
    (by decide) rfl (by decide)

/-- C2: after a correct answer the history gains a `correct` record dated
today (length + 1), the tier cursor advances to `i + 1`, and `completed`
becomes true exactly when the new cursor reaches 5 (false for `i < 4`,
true for `i = 4`). -/
theorem claim2_correct_advance (e : Entry) (raw : String) (today : DateV)
    (i : Nat) (hidx : e.next_review_index = i) (hlen : e.schedule.length = 5)
    (hcomp : e.completed = false) (hcorr : answer_correct raw e.english = true) :
    record_answer e raw today = some (true, { e with
      history := e.history ++ [⟨iso today, AnswerResult.correct⟩],
      next_review_index := i + 1,
      completed := decide (5 ≤ i + 1) }) ∧
    (e.history ++ [(⟨iso today, AnswerResult.correct⟩ : HistoryRecord)]).length = e.history.length + 1 ∧
    (i < 4 → decide (5 ≤ i + 1) = false) ∧
    (i = 4 → decide (5 ≤ i + 1) = true) := by
  refine ⟨?_, by simp, by intro h; simp; omega, by intro h; simp [h]⟩
  unfold record_answer
  rw [hcorr, if_pos rfl, hidx, hlen, hcomp]
  have hcompl : (if 5 ≤ i + 1 then true else false) = decide (5 ≤ i + 1) := by
    split <;> simp_all
  rw [hcompl]

/-- C2 witness at tier 4: the item reaches completion. -/
theorem claim2_witness :
    record_answer (entryAt 4 false) "Dog " ⟨2024, 1, 31⟩ =
      some (true, { entryAt 4 false with
        history := (entryAt 4 false).history ++ [⟨iso ⟨2024, 1, 31⟩, AnswerResult.correct⟩],
        next_review_index := 4 + 1,
        completed := decide (5 ≤ 4 + 1) }) ∧
    ((entryAt 4 false).history ++ [(⟨iso ⟨2024, 1, 31⟩, AnswerResult.correct⟩ : HistoryRecord)]).length =
      (entryAt 4 false).history.length + 1 ∧
    (4 < 4 → decide (5 ≤ 4 + 1) = false) ∧
    (4 = 4 → decide (5 ≤ 4 + 1) = true) :=
  claim2_correct_advance (entryAt 4 false) "Dog " ⟨2024, 1, 31⟩ 4 rfl rfl rfl (by decide)

/-- C3: an item is due exactly when it is not completed, its tier cursor is
below 5, and its scheduled date at the cursor is at most today; the
comparison is `≤`, so a scheduled date arbitrarily far in the past keeps
the item due. -/
theorem claim3_is_due (e : Entry) (today : String) (hlen : e.schedule.length = 5) :
    is_due e today = true ↔
      e.completed = false ∧ e.next_review_index < 5 ∧
        pyStrLe (e.schedule.getD e.next_review_index "") today = true := by
  unfold is_due
  cases hc : e.completed with
  | true => simp [hc]
  | false =>
    simp only [hc, Bool.false_eq_true, if_false, true_and]
    cases hg : e.schedule[e.next_review_index]? with
    | none =>
      have hge : e.schedule.length ≤ e.next_review_index := List.getElem?_eq_none_iff.mp hg
      constructor
      · intro h; exact absurd h (by simp)
      · rintro ⟨h1, -⟩; omega
    | some s =>
      have hlt : e.next_review_index < e.schedule.length := by
        rcases Nat.lt_or_ge e.next_review_index e.schedule.length with h | h
        · exact h
        · rw [List.getElem?_eq_none_iff.mpr h] at hg; cases hg
      have hD : e.schedule.getD e.next_review_index "" = s := by
        rw [List.getD_eq_getElem?_getD, hg]; rfl
      rw [hD]
      constructor
      · intro h; exact ⟨by omega, h⟩
      · intro h; exact h.2

/-- C3 witness: a concrete item whose scheduled date is weeks in the past
is still due. -/
theorem claim3_witness :
    is_due (entryAt 1 false) "2024-03-01" = true ↔
      (entryAt 1 false).completed = false ∧
      (entryAt 1 false).next_review_index < 5 ∧
      pyStrLe ((entryAt 1 false).schedule.getD (entryAt 1 false).next_review_index "")
        "2024-03-01" = true :=
  claim3_is_due (entryAt 1 false) "2024-03-01" rfl

/-- C4: the correctness test of `record_answer` accepts exactly when the
submitted text, trimmed of surrounding whitespace, equals the target text
case-insensitively: the boolean `record_answer` reports is this test, and
`" Hello "` matches `"hello"` while `"helo"` does not. -/
theorem claim4_match_rule :
    (∀ s t : String, answer_correct s t = true ↔ pyLower (pyStrip s) = pyLower t) ∧
    (∀ (e : Entry) (raw : String) (td : DateV) (c : Bool) (e' : Entry),
        record_answer e raw td = some (c, e') → c = answer_correct raw e.english) ∧
    answer_correct " Hello " "hello" = true ∧
    answer_correct "helo" "hello" = false := by
  refine ⟨fun s t => ?_, fun e raw td c e' h => ?_, by decide, by decide⟩
  · simp [answer_correct]
  · unfold record_answer at h
    split at h
    · rename_i hc
      cases h
      exact hc.symm
    · split at h
      · rename_i hc _
        cases h
        simpa using hc
      · exact absurd h (by simp)

/-- C4 witness: the boolean reported at a concrete call is the match rule's
verdict. -/
theorem claim4_witness :
    true = answer_correct "dog" (entryAt 0 false).english :=
  claim4_match_rule.2.1 (entryAt 0 false) "dog" ⟨2024, 1, 2⟩ true
    { entryAt 0 false with
      history := [⟨"2024-01-02", AnswerResult.correct⟩],
      next_review_index := 1, completed := false }
    (by decide)

/-- C5: the generated schedule is exactly the five dates at offsets
1, 3, 7, 14, 30 days from the registration date, in that order (a pure map
over `REVIEW_INTERVALS`); instantiated at the specification's example date
2024-01-01. -/
theorem claim5_generate_schedule :
    (∀ r : DateV, generate_schedule r =
      [iso (addDays r 1), iso (addDays r 3), iso (addDays r 7),
        iso (addDays r 14), iso (addDays r 30)]) ∧
    generate_schedule ⟨2024, 1, 1⟩ =
      ["2024-01-02", "2024-01-04", "2024-01-08", "2024-01-15", "2024-01-31"] :=
  ⟨fun _ => rfl, by decide⟩
instance (e : Entry) : Decidable (entryInv e) := by
  unfold entryInv
  infer_instance

/-- C6 counterexample: the invariant is violated by `record_answer` on an
already-completed item — a correct answer pushes the tier cursor from 5 to
6 (out of `[0,5]`), while `completed` remains true. -/
theorem claim6_counterexample :
    entryInv (entryAt 5 true) ∧
    record_answer (entryAt 5 true) "dog" ⟨2024, 2, 1⟩ =
      some (true, { entryAt 5 true with
        history := [⟨"2024-02-01", AnswerResult.correct⟩],
        next_review_index := 6, completed := true }) ∧
    ¬ entryInv { entryAt 5 true with
        history := [⟨"2024-02-01", AnswerResult.correct⟩],
        next_review_index := 6, completed := true } :=
  ⟨by decide, by decide, by decide⟩

/-- C6 (amended): the invariant `next_tier_index ∈ [0,5]` and
`completed ↔ next_tier_index = 5` holds at creation and is preserved by
every committed `record_answer` call on a not-yet-completed item with the
standard five-slot schedule; invoking `record_answer` on an
already-completed item breaks it (see the counterexample). -/
theorem claim6_invariant :
    (∀ (newId : Nat) (jp en : String) (today : DateV) (e : Entry),
        api_add newId jp en today = some e → entryInv e ∧ e.schedule.length = 5) ∧
    (∀ (e : Entry) (raw : String) (today : DateV) (c : Bool) (e' : Entry),
        e.schedule.length = 5 → e.completed = false → entryInv e →
        record_answer e raw today = some (c, e') →
        entryInv e' ∧ e'.schedule.length = 5) := by
  constructor
  · intro newId jp en today e h
    simp only [api_add] at h
    split at h
    · exact absurd h (by simp)
    · cases h
      refine ⟨⟨by simp, by simp [entryInv]⟩, ?_⟩
      simp [generate_schedule, REVIEW_INTERVALS]
  · intro e raw today c e' hlen hcomp hinv hr
    have h1 : e.next_review_index ≤ 5 := hinv.1
    have hne5 : e.next_review_index ≠ 5 := fun h5 => by
      rw [hinv.2.mpr h5] at hcomp; cases hcomp
    unfold record_answer at hr
    split at hr
    · cases hr
      refine ⟨⟨by simp; omega, ?_⟩, by simpa using hlen⟩
      simp only [hlen, hcomp]
      constructor
      · intro h
        by_cases h5 : (5 : Nat) ≤ e.next_review_index + 1
        · omega
        · rw [if_neg h5] at h; cases h
      · intro h
        rw [if_pos (by omega)]
    · split at hr
      · cases hr
        refine ⟨⟨by simpa using h1, ?_⟩, by simpa using hlen⟩
        simp only [hcomp]
        constructor
        · intro h; cases h
        · intro h; exact absurd h hne5
      · exact absurd hr (by simp)

/-- C6 witness: the amended invariant at a concrete creation and a concrete
correct answer at tier 0. -/
theorem claim6_witness :
    (entryInv (entryAt 0 false) ∧ (entryAt 0 false).schedule.length = 5) ∧
    (entryInv { entryAt 0 false with
        history := [⟨"2024-01-02", AnswerResult.correct⟩],
        next_review_index := 1, completed := false } ∧
      ({ entryAt 0 false with
        history := [⟨"2024-01-02", AnswerResult.correct⟩],
        next_review_index := 1, completed := false } : Entry).schedule.length = 5) :=
  ⟨claim6_invariant.1 1 "inu" "dog" ⟨2024, 1, 1⟩ (entryAt 0 false) (by decide),
    claim6_invariant.2 (entryAt 0 false) "dog" ⟨2024, 1, 2⟩ true
      { entryAt 0 false with
        history := [⟨"2024-01-02", AnswerResult.correct⟩],
        next_review_index := 1, completed := false }
      (by decide) (by decide) (by decide) (by decide)⟩

/-- C7: an answer that trims to the empty string is dropped by the session
engine before anything is sent to the server — the session state and every
stored item are left exactly as they were. -/
theorem claim7_empty_answer (st : TestState) (db : List Entry) (raw : String)
    (today : DateV) (hw : st.waiting = false) (he : pyStrip raw = "") :
    submitAnswer st db raw today = (st, db) := by
  unfold submitAnswer
  rw [hw]
  simp [he]

/-- C7 witness: a whitespace-only submission at a concrete session state
changes nothing. -/
theorem claim7_witness :
    submitAnswer (startTest [entryAt 1 false]) [entryAt 1 false] "   " ⟨2024, 1, 4⟩ =
      (startTest [entryAt 1 false], [entryAt 1 false]) :=
  claim7_empty_answer (startTest [entryAt 1 false]) [entryAt 1 false] "   "
    ⟨2024, 1, 4⟩ rfl (by decide)
/-- Helper: a single practice interaction never changes the item list held
by the practice session (and, having type `PracticeState → String →
PracticeState`, it cannot touch the stored entries at all). -/
theorem submitPracticeAnswer_reviews (s : PracticeState) (raw : String) :
    (submitPracticeAnswer s raw).reviews = s.reviews := by
  unfold submitPracticeAnswer nextPracticeQuestion
  repeat' split
  all_goals rfl

/-- Helper: a whole practice run preserves the session's item list. -/
theorem runPractice_reviews (answers : List String) :
    ∀ s : PracticeState, (runPractice s answers).reviews = s.reviews := by
  induction answers with
  | nil => intro s; rfl
  | cons a rest ih =>
    intro s
    rw [runPractice, ih, submitPracticeAnswer_reviews, submitPracticeAnswer_reviews]

/-- C9: practice mode is non-scoring — a complete practice run (of any
length, and also a second run on top of a first) leaves every item exactly
as it was at entry, and its local correctness test on the trimmed input
coincides with the Scheduler's match rule.  `runPractice` never calls
`record_answer`: its state is the client-side `practiceState` alone. -/
theorem claim9_practice_pure :
    (∀ (s : PracticeState) (answers : List String),
      (runPractice s answers).reviews = s.reviews) ∧
    (∀ (items : List Entry) (answers1 answers2 : List String),
      (runPractice (startPractice items) answers1).reviews = items ∧
      (runPractice (runPractice (startPractice items) answers1) answers2).reviews = items) ∧
    (∀ a t : String, practice_correct (pyStrip a) t = answer_correct a t) :=
  ⟨fun s answers => runPractice_reviews answers s,
    fun items a1 a2 =>
      ⟨runPractice_reviews a1 (startPractice items),
        by rw [runPractice_reviews a2, runPractice_reviews a1]; rfl⟩,
    fun a t => rfl⟩
/-- Helper: code point of a digit character. -/
theorem dChar_toNat (n : Nat) : (dChar n).toNat = 48 + n % 10 := by
  have h : n % 10 < 10 := Nat.mod_lt _ (by omega)
  unfold dChar
  set k := n % 10 with hk
  interval_cases k <;> decide

/-- Helper: the step equation of the lexicographic comparison. -/
theorem pyLe_cons (a b : Char) (as bs : List Char) :
    pyLe (a :: as) (b :: bs) =
      if a.toNat < b.toNat then true
      else if b.toNat < a.toNat then false
      else pyLe as bs := rfl

/-- Helper: comparing two four-digit zero-padded blocks lexicographically
compares the numbers, and ties pass through to the remainders. -/
theorem pyLe_pad4 (a b : Nat) (ha : a < 10000) (hb : b < 10000)
    (r s : List Char) :
    pyLe (pad4 a ++ r) (pad4 b ++ s) =
      if a < b then true else if b < a then false else pyLe r s := by
  simp only [pad4, List.cons_append, List.nil_append, pyLe_cons, dChar_toNat]
  split_ifs <;> first | rfl | omega

/-- Helper: the two-digit analogue of `pyLe_pad4`. -/
theorem pyLe_pad2 (a b : Nat) (ha : a < 100) (hb : b < 100)
    (r s : List Char) :
    pyLe (pad2 a ++ r) (pad2 b ++ s) =
      if a < b then true else if b < a then false else pyLe r s := by
  simp only [pad2, List.cons_append, List.nil_append, pyLe_cons, dChar_toNat]
  split_ifs <;> first | rfl | omega

/-- Helper: comparing two bare two-digit blocks. -/
theorem pyLe_pad2_nil (a b : Nat) (ha : a < 100) (hb : b < 100) :
    pyLe (pad2 a) (pad2 b) =
      if a < b then true else if b < a then false else true := by
  have h := pyLe_pad2 a b ha hb [] []
  rw [List.append_nil, List.append_nil] at h
  exact h

/-- Helper: equal separator characters pass the comparison through. -/
theorem pyLe_sep (c : Char) (r s : List Char) :
    pyLe (c :: r) (c :: s) = pyLe r s := by
  rw [pyLe_cons]
  simp

/-- Helper: the two-way comparison with a trivial tie equals `≤`. -/
theorem ifLtChain_eq_decide (x y : Nat) :
    (if x < y then true else if y < x then false else true) =
      decide (x ≤ y) := by
  split_ifs with h1 h2
  · exact (decide_eq_true (by omega)).symm
  · exact (decide_eq_false (by omega)).symm
  · exact (decide_eq_true (by omega)).symm

/-- Helper: every month has at most 31 days. -/
theorem daysInMonth_le (y m : Nat) : daysInMonth y m ≤ 31 := by
  unfold daysInMonth
  split_ifs <;> omega

instance (d : DateV) : Decidable (ValidDate d) := by
  unfold ValidDate
  infer_instance

/-- C10: on valid calendar dates — which covers every date the program
produces via `isoformat` (`generate_schedule`, `get_today_str`, and the
postpone-to-tomorrow branch) — Python's lexicographic `<=` on the ISO
`YYYY-MM-DD` strings coincides with the date-level calendar comparison, so
the string-level due check implements the date-level specification. -/
theorem claim10_string_date_refinement (a b : DateV)
    (ha : ValidDate a) (hb : ValidDate b) :
    pyStrLe (iso a) (iso b) = calendarLe a b := by
  obtain ⟨hay1, hay2, ham1, ham2, had1, had2⟩ := ha
  obtain ⟨hby1, hby2, hbm1, hbm2, hbd1, hbd2⟩ := hb
  have had : a.day ≤ 31 := le_trans had2 (daysInMonth_le _ _)
  have hbd : b.day ≤ 31 := le_trans hbd2 (daysInMonth_le _ _)
  show pyLe (isoChars a) (isoChars b) = _
  unfold isoChars calendarLe
  rw [pyLe_pad4 a.year b.year (by omega) (by omega), pyLe_sep,
    pyLe_pad2 a.month b.month (by omega) (by omega), pyLe_sep,
    pyLe_pad2_nil a.day b.day (by omega) (by omega),
    ifLtChain_eq_decide a.day b.day]

/-- C10 witness at two concrete valid dates (a past scheduled date and
today). -/
theorem claim10_witness :
    pyStrLe (iso ⟨2024, 1, 4⟩) (iso ⟨2024, 2, 1⟩) =
      calendarLe ⟨2024, 1, 4⟩ ⟨2024, 2, 1⟩ :=
  claim10_string_date_refinement ⟨2024, 1, 4⟩ ⟨2024, 2, 1⟩ (by decide) (by decide)
/-- Helper: `dropWhile` is idempotent. -/
theorem dropWhile_twice {α : Type} (p : α → Bool) (l : List α) :
    (l.dropWhile p).dropWhile p = l.dropWhile p := by
  induction l with
  | nil => rfl
  | cons a t ih =>
    rw [List.dropWhile_cons]
    split
    · exact ih
    · rw [List.dropWhile_cons, if_neg (by assumption)]

/-- Helper: the head surviving a `dropWhile` fails the predicate. -/
theorem head_false_of_dropWhile {α : Type} (p : α → Bool) (l : List α)
    (a : α) (t : List α) (h : l.dropWhile p = a :: t) : p a = false := by
  induction l with
  | nil => cases h
  | cons x xs ih =>
    rw [List.dropWhile_cons] at h
    by_cases hx : p x = true
    · rw [if_pos hx] at h
      exact ih h
    · rw [if_neg hx] at h
      cases h
      simpa using hx

/-- Helper: `dropWhile` removes a prefix. -/
theorem dropWhile_drops_front {α : Type} (p : α → Bool) (l : List α) :
    ∃ u, u ++ l.dropWhile p = l := by
  induction l with
  | nil => exact ⟨[], rfl⟩
  | cons a t ih =>
    rw [List.dropWhile_cons]
    split
    · obtain ⟨u, hu⟩ := ih
      exact ⟨a :: u, by simp [hu]⟩
    · exact ⟨[], rfl⟩

/-- Helper: `dropWhile` fixes any list that is itself a `dropWhile` image. -/
theorem dropWhile_of_image {α : Type} (p : α → Bool) (l m : List α)
    (h : l = m.dropWhile p) : l.dropWhile p = l := by
  rw [h, dropWhile_twice]

/-- Helper: `dropWhile` fixes any list whose extension by a tail is a
`dropWhile` image. -/
theorem dropWhile_of_front {α : Type} (p : α → Bool) (l v m : List α)
    (h : l ++ v = m.dropWhile p) : l.dropWhile p = l := by
  cases l with
  | nil => rfl
  | cons a t =>
    rw [List.dropWhile_cons,
      if_neg (by simp [head_false_of_dropWhile p m a (t ++ v) (by simpa using h.symm)])]

/-- Helper: Python `strip` is idempotent. -/
theorem pyStrip_idem (s : String) : pyStrip (pyStrip s) = pyStrip s := by
  unfold pyStrip
  obtain ⟨l⟩ := s
  show String.mk _ = String.mk _
  congr 1
  show (((((l.dropWhile isPySpace).reverse.dropWhile isPySpace).reverse).dropWhile
      isPySpace).reverse.dropWhile isPySpace).reverse = _
  have h1 : (((l.dropWhile isPySpace).reverse.dropWhile isPySpace).reverse).dropWhile
      isPySpace = ((l.dropWhile isPySpace).reverse.dropWhile isPySpace).reverse := by
    obtain ⟨u, hu⟩ := dropWhile_drops_front isPySpace (l.dropWhile isPySpace).reverse
    have hpre : ((l.dropWhile isPySpace).reverse.dropWhile isPySpace).reverse ++ u.reverse =
        l.dropWhile isPySpace := by
      rw [← List.reverse_append, hu, List.reverse_reverse]
    exact dropWhile_of_front isPySpace _ _ l hpre
  rw [h1, List.reverse_reverse,
    dropWhile_of_image isPySpace _ (l.dropWhile isPySpace).reverse rfl]

/-- Helper: the match rule is invariant under pre-trimming (the session
engine trims before sending, and the server trims again). -/
theorem answer_correct_strip (a t : String) :
    answer_correct (pyStrip a) t = answer_correct a t := by
  unfold answer_correct
  rw [pyStrip_idem]
/-- Helper: `record_answer` never changes an entry's id or target text. -/
theorem record_answer_fields (e : Entry) (raw : String) (today : DateV)
    (c : Bool) (e' : Entry) (h : record_answer e raw today = some (c, e')) :
    e'.id = e.id ∧ e'.english = e.english := by
  unfold record_answer at h
  split at h
  · cases h
    exact ⟨rfl, rfl⟩
  · split at h
    · cases h
      exact ⟨rfl, rfl⟩
    · cases h

/-- Stored ids are primary keys: distinct rows have distinct ids. -/
def uniqIds (db : List Entry) : Prop :=
  ∀ x ∈ db, ∀ y ∈ db, x.id = y.id → x = y

/-- Each session snapshot has a stored row with its id and target text. -/
def dbAgrees (db reviews : List Entry) : Prop :=
  ∀ e ∈ reviews, ∃ x ∈ db, x.id = e.id ∧ x.english = e.english

/-- Helper: a committed row update (same id, same target text) preserves
id-uniqueness and agreement with the session snapshots. -/
theorem db_update_preserves (db : List Entry) (eid : Nat) (x x' : Entry)
    (hu : uniqIds db) (hx : x ∈ db) (hxid : x.id = eid)
    (hid : x'.id = x.id) (heng : x'.english = x.english) :
    uniqIds (db.map (fun y => if y.id == eid then x' else y)) ∧
      ∀ reviews, dbAgrees db reviews →
        dbAgrees (db.map (fun y => if y.id == eid then x' else y)) reviews := by
  have hf : ∀ y ∈ db, ((fun y => if y.id == eid then x' else y) y).id = y.id ∧
      ((fun y => if y.id == eid then x' else y) y).english = y.english := by
    intro y hy
    by_cases hyid : (y.id == eid) = true
    · have hyx : y = x := hu y hy x hx (by rw [beq_iff_eq] at hyid; omega)
      subst hyx
      simp [hyid, hid, heng]
    · simp [hyid]
  constructor
  · intro a' ha' b' hb' hab
    obtain ⟨a, ha, rfl⟩ := List.mem_map.mp ha'
    obtain ⟨b, hb, rfl⟩ := List.mem_map.mp hb'
    have hidab : a.id = b.id := by
      rw [← (hf a ha).1, ← (hf b hb).1]
      exact hab
    rw [hu a ha b hb hidab]
  · intro reviews hagr e he
    obtain ⟨w, hw, hwid, hweng⟩ := hagr e he
    exact ⟨(fun y => if y.id == eid then x' else y) w, List.mem_map_of_mem _ hw,
      by rw [(hf w hw).1]; exact hwid, by rw [(hf w hw).2]; exact hweng⟩
/-- Helper: one full question interaction with a correct, non-empty answer
advances the queue position and both counters by one, sets no incorrect
mark, and commits a row update that keeps ids unique and the snapshots in
agreement. -/
theorem stepAnswer_correct (today : DateV) (st : TestState) (db : List Entry)
    (raw : String) (e : Entry)
    (hw : st.waiting = false)
    (hget : st.reviews[st.idx]? = some e)
    (hne : (pyStrip raw == "") = false)
    (hcorr : answer_correct raw e.english = true)
    (hu : uniqIds db) (ha : dbAgrees db st.reviews) :
    (stepAnswer today (st, db) raw).1 =
      { st with
        idx := st.idx + 1,
        tested := st.tested + 1,
        correct := st.correct + 1,
        waiting := false } ∧
    uniqIds (stepAnswer today (st, db) raw).2 ∧
    dbAgrees (stepAnswer today (st, db) raw).2 st.reviews := by
  obtain ⟨x, hxmem, hxid, hxeng⟩ := ha e (List.getElem?_mem hget)
  have hsome : (db.find? (fun y => y.id == e.id)).isSome := by
    rw [List.find?_isSome]
    exact ⟨x, hxmem, by simp [hxid]⟩
  obtain ⟨z, hz⟩ := Option.isSome_iff_exists.mp hsome
  have hzmem : z ∈ db := List.mem_of_find?_eq_some hz
  have hzid : z.id = e.id := by
    have := List.find?_some hz
    simpa using this
  have hzx : z = x := hu z hzmem x hxmem (hzid.trans hxid.symm)
  have hzcorr : answer_correct (pyStrip raw) z.english = true := by
    rw [hzx, hxeng, answer_correct_strip]
    exact hcorr
  have hrec : record_answer z (pyStrip raw) today =
      some (true, { z with
        history := z.history ++ [⟨iso today, AnswerResult.correct⟩],
        next_review_index := z.next_review_index + 1,
        completed := if z.schedule.length ≤ z.next_review_index + 1 then true
          else z.completed }) := by
    unfold record_answer
    rw [hzcorr]
    simp
  have hupd := db_update_preserves db e.id z
    { z with
      history := z.history ++ [⟨iso today, AnswerResult.correct⟩],
      next_review_index := z.next_review_index + 1,
      completed := if z.schedule.length ≤ z.next_review_index + 1 then true
        else z.completed }
    hu hzmem hzid rfl rfl
  have hserver : api_answer_server db e.id (pyStrip raw) today =
      (ServerResp.ok true (if z.schedule.length ≤ z.next_review_index + 1 then true
          else z.completed),
        db.map (fun y => if y.id == e.id then { z with
          history := z.history ++ [⟨iso today, AnswerResult.correct⟩],
          next_review_index := z.next_review_index + 1,
          completed := if z.schedule.length ≤ z.next_review_index + 1 then true
            else z.completed } else y)) := by
    unfold api_answer_server
    rw [hz]
    simp only [hrec]
  have hsub1 : submitAnswer st db raw today =
      ({ st with
          tested := st.tested + 1,
          correct := st.correct + 1,
          waiting := true },
        db.map (fun y => if y.id == e.id then { z with
          history := z.history ++ [⟨iso today, AnswerResult.correct⟩],
          next_review_index := z.next_review_index + 1,
          completed := if z.schedule.length ≤ z.next_review_index + 1 then true
            else z.completed } else y)) := by
    unfold submitAnswer
    simp only [hw, hne, hget, hserver, Bool.false_eq_true, if_false, if_true]
  have hstep : stepAnswer today (st, db) raw =
      ({ st with
          idx := st.idx + 1,
          tested := st.tested + 1,
          correct := st.correct + 1,
          waiting := false },
        db.map (fun y => if y.id == e.id then { z with
          history := z.history ++ [⟨iso today, AnswerResult.correct⟩],
          next_review_index := z.next_review_index + 1,
          completed := if z.schedule.length ≤ z.next_review_index + 1 then true
            else z.completed } else y)) := by
    unfold stepAnswer
    rw [hsub1]
    unfold submitAnswer
    rfl
  rw [hstep]
  exact ⟨rfl, hupd.1, hupd.2 st.reviews ha⟩
/-- Helper: running a queue of all-correct, non-empty answers from any
mid-session state with `answers.length` questions left moves the position
to the end of the queue, adds one submission and one correct mark per
question, and touches nothing else in the session state. -/
theorem runAnswers_all_correct (today : DateV) :
    ∀ (answers : List String) (st : TestState) (db : List Entry),
      st.waiting = false →
      st.idx + answers.length = st.reviews.length →
      uniqIds db → dbAgrees db st.reviews →
      (∀ k, k < answers.length →
        (pyStrip (answers.getD k "") == "") = false ∧
        answer_correct (answers.getD k "")
          ((st.reviews.getD (st.idx + k) default).english) = true) →
      (runAnswers today (st, db) answers).1 =
        { st with
          idx := st.reviews.length,
          tested := st.tested + answers.length,
          correct := st.correct + answers.length,
          waiting := false } := by
  intro answers
  induction answers with
  | nil =>
    intro st db hw hlen hu ha hk
    obtain ⟨rv, ix, co, te, wa, inc, ro, tor⟩ := st
    simp only [List.length_nil, Nat.add_zero] at hlen ⊢
    subst hw
    rw [runAnswers]
    simp only [TestState.mk.injEq]
    refine ⟨?_, ?_, ?_, ?_, ?_, ?_, ?_, ?_⟩ <;> trivial
  | cons a rest ih =>
    intro st db hw hlen hu ha hk
    have hidx : st.idx < st.reviews.length := by
      simp only [List.length_cons] at hlen
      omega
    have hget : st.reviews[st.idx]? = some (st.reviews.getD st.idx default) := by
      rw [List.getD_eq_getElem _ _ hidx]
      exact List.getElem?_eq_getElem hidx
    obtain ⟨hne0, hcorr0⟩ := hk 0 (by simp)
    have hne : (pyStrip a == "") = false := by simpa using hne0
    have hcorr : answer_correct a ((st.reviews.getD st.idx default).english) = true := by
      simpa using hcorr0
    obtain ⟨hst1, hu', ha'⟩ :=
      stepAnswer_correct today st db a (st.reviews.getD st.idx default)
        hw hget hne hcorr hu ha
    rw [runAnswers]
    have hpair : stepAnswer today (st, db) a =
        ((stepAnswer today (st, db) a).1, (stepAnswer today (st, db) a).2) := rfl
    rw [hpair, hst1]
    have hk' : ∀ k, k < rest.length →
        (pyStrip (rest.getD k "") == "") = false ∧
        answer_correct (rest.getD k "")
          ((st.reviews.getD (st.idx + 1 + k) default).english) = true := by
      intro k hkk
      have h := hk (k + 1) (by simp; omega)
      have he1 : (a :: rest).getD (k + 1) "" = rest.getD k "" := rfl
      have he2 : st.idx + (k + 1) = st.idx + 1 + k := by omega
      rw [he1, he2] at h
      exact h
    have hrun := ih { st with
        idx := st.idx + 1,
        tested := st.tested + 1,
        correct := st.correct + 1,
        waiting := false } (stepAnswer today (st, db) a).2
      rfl (by simp only [List.length_cons] at hlen; simpa using (by omega : st.idx + 1 + rest.length = st.reviews.length))
      hu' ha' hk'
    rw [hrun]
    simp only [TestState.mk.injEq]
    refine ⟨?_, ?_, ?_, ?_, ?_, ?_, ?_, ?_⟩ <;> first | trivial | omega | (simp; omega)
instance (db : List Entry) : Decidable (uniqIds db) := by
  unfold uniqIds
  infer_instance

/-- C8: a Review Test session over a non-empty due set of size N in which
every submitted answer is correct (and non-empty) ends after exactly N
submissions on the final-result screen, with no accumulated incorrect
items and the round counter still 1 — no retry round occurs. -/
theorem claim8_perfect_session (db : List Entry) (today : DateV)
    (answers : List String)
    (hu : uniqIds db)
    (_hne : due_entries db (iso today) ≠ [])
    (hlen : answers.length = (due_entries db (iso today)).length)
    (hk : ∀ k, k < answers.length →
      (pyStrip (answers.getD k "") == "") = false ∧
      answer_correct (answers.getD k "")
        (((due_entries db (iso today)).getD k default).english) = true) :
    (runAnswers today (startTest (due_entries db (iso today)), db) answers).1.tested =
        (due_entries db (iso today)).length ∧
    (runAnswers today (startTest (due_entries db (iso today)), db) answers).1.round = 1 ∧
    (runAnswers today (startTest (due_entries db (iso today)), db) answers).1.incorrect = [] ∧
    sessionPhase
        (runAnswers today (startTest (due_entries db (iso today)), db) answers).1 =
      Phase.finalResult := by
  have hagr : dbAgrees db (startTest (due_entries db (iso today))).reviews := by
    intro e he
    have hmem : e ∈ db := by
      have : e ∈ due_entries db (iso today) := he
      exact (List.mem_filter.mp this).1
    exact ⟨e, hmem, rfl, rfl⟩
  have hrun := runAnswers_all_correct today answers
    (startTest (due_entries db (iso today))) db rfl
    (by simp [startTest]; omega) hu hagr
    (by intro k hk'; simpa [startTest] using hk k hk')
  rw [hrun]
  refine ⟨by simp [startTest, hlen], rfl, rfl, ?_⟩
  simp [sessionPhase, startTest]

/-- C8 witness: a one-item due set answered correctly once. -/
theorem claim8_witness :
    (runAnswers ⟨2024, 1, 4⟩
        (startTest (due_entries [entryAt 1 false] (iso ⟨2024, 1, 4⟩)),
          [entryAt 1 false]) ["dog"]).1.tested =
        (due_entries [entryAt 1 false] (iso ⟨2024, 1, 4⟩)).length ∧
    (runAnswers ⟨2024, 1, 4⟩
        (startTest (due_entries [entryAt 1 false] (iso ⟨2024, 1, 4⟩)),
          [entryAt 1 false]) ["dog"]).1.round = 1 ∧
    (runAnswers ⟨2024, 1, 4⟩
        (startTest (due_entries [entryAt 1 false] (iso ⟨2024, 1, 4⟩)),
          [entryAt 1 false]) ["dog"]).1.incorrect = [] ∧
    sessionPhase
        (runAnswers ⟨2024, 1, 4⟩
          (startTest (due_entries [entryAt 1 false] (iso ⟨2024, 1, 4⟩)),
            [entryAt 1 false]) ["dog"]).1 =
      Phase.finalResult :=
  claim8_perfect_session [entryAt 1 false] ⟨2024, 1, 4⟩ ["dog"]
    (by decide) (by decide) (by decide) (by decide)
